import Mathlib

/-!
Verification of the picasso ASCII-art drawing engine (src/picasso/picasso.py)
against its natural-language specification.

The Python source is shallowly embedded: points, lines and rectangles become
Lean structures, the curses window becomes a function from grid coordinates to
characters, the mutable interpreter object becomes an explicit state record,
and the recursive flood fill becomes a fuel-indexed recursion (with theorems
showing the result is independent of the fuel once it is large enough, which
is the formal counterpart of termination of the Python recursion).
-/

/-- A grid point, as in class Point of the source: integer coordinates. -/
structure Point where
  x : Int
  y : Int
  deriving DecidableEq

/-- Point right above (Point.get_up). -/
def Point.get_up (p : Point) : Point := ⟨p.x, p.y - 1⟩

/-- Point right below (Point.get_down). -/
def Point.get_down (p : Point) : Point := ⟨p.x, p.y + 1⟩

/-- Point to the left (Point.get_left). -/
def Point.get_left (p : Point) : Point := ⟨p.x - 1, p.y⟩

/-- Point to the right (Point.get_right). -/
def Point.get_right (p : Point) : Point := ⟨p.x + 1, p.y⟩

/-- Point.__eq__ of the source: exact coordinate match, as a Bool. -/
def Point.eq (p other : Point) : Bool := decide (p.x = other.x ∧ p.y = other.y)

/-- Point.touches of the source: simply checks if it is the same point. -/
def Point.touches (p other : Point) : Bool := Point.eq p other

/-- Point.__ne__ of the source.  The source returns self.__eq__(other)
rather than its negation, and this embedding reproduces that faithfully. -/
def Point.ne (p other : Point) : Bool := Point.eq p other

/-- Line orientation: source constants Line.Horizontal = H and
Line.Vertical = V; diag models the Python None returned by
get_orientation for a diagonal line. -/
inductive Orient where
  | H
  | V
  | diag
  deriving DecidableEq

/-- A line after construction: stored endpoints, derived orientation and
length, exactly the fields set by Line.__init__. -/
structure Line where
  p1 : Point
  p2 : Point
  orientation : Orient
  length : Int
  deriving DecidableEq

/-- Line.get_orientation of the source, computed on the two endpoints as
passed to the constructor. -/
def get_orientation (a b : Point) : Orient :=
  if a.x = b.x then Orient.V
  else if a.y = b.y then Orient.H
  else Orient.diag

/-- Line.__init__ of the source: computes the orientation, swaps the
endpoints so that vertical lines are sorted by y and horizontal lines by x,
then derives the length (get_length: p2.x - p1.x when horizontal, otherwise
p2.y - p1.y). -/
def mkLine (a b : Point) : Line :=
  let o := get_orientation a b
  let pr : Point × Point :=
    match o with
    | Orient.V => if a.y > b.y then (b, a) else (a, b)
    | Orient.H => if a.x > b.x then (b, a) else (a, b)
    | Orient.diag => (a, b)
  { p1 := pr.1
    p2 := pr.2
    orientation := o
    length := if o = Orient.H then pr.2.x - pr.1.x else pr.2.y - pr.1.y }

/-- Line.validate of the source: geometrically valid iff horizontal or
vertical. -/
def Line.validate (l : Line) : Bool :=
  decide (l.orientation = Orient.H ∨ l.orientation = Orient.V)

/-- Line.touches of the source, as a Bool.  The Python function returns True
inside the two span checks, falls through to None (falsy) when the point is
on the axis but outside the span, and returns False otherwise; truthiness is
modelled by the Bool value. -/
def Line.touches (l : Line) (p : Point) : Bool :=
  if l.orientation = Orient.V ∧ p.x = l.p1.x then
    decide (l.p2.y ≥ p.y ∧ p.y ≥ l.p1.y)
  else if l.orientation = Orient.H ∧ p.y = l.p1.y then
    decide (l.p2.x ≥ p.x ∧ p.x ≥ l.p1.x)
  else false

/-- Render style tag: source constants Line.Canvas and Line.Regular. -/
inductive LType where
  | Canvas
  | Regular
  deriving DecidableEq

/-- The curses window, modelled as the character stored at each grid
coordinate. -/
def Window : Type := Point → Char

/-- Write one character at one cell (window.move + window.addstr). -/
def setCell (w : Window) (p : Point) (c : Char) : Window :=
  fun q => if q = p then c else w q

/-- Point.draw of the source. -/
def Point.draw (p : Point) (c : Char) (w : Window) : Window := setCell w p c

/-- Point.undraw of the source: clears the cell to blank. -/
def Point.undraw (p : Point) (w : Window) : Window := setCell w p ' '

/-- curses window.hline: write n copies of c rightwards from (x, y). -/
def hlineW : Window → Int → Int → Char → Nat → Window
  | w, _, _, _, 0 => w
  | w, y, x, c, Nat.succ n => hlineW (setCell w ⟨x, y⟩ c) y (x + 1) c n

/-- curses window.vline: write n copies of c downwards from (x, y). -/
def vlineW : Window → Int → Int → Char → Nat → Window
  | w, _, _, _, 0 => w
  | w, y, x, c, Nat.succ n => vlineW (setCell w ⟨x, y⟩ c) (y + 1) x c n

/-- Line.draw of the source: does nothing when the line does not validate;
otherwise draws length + 1 cells with a dash or pipe for canvas style and
the x marker otherwise. -/
def Line.draw (l : Line) (lt : LType) (w : Window) : Window :=
  if l.validate then
    let c : Char :=
      if lt = LType.Canvas then
        (if l.orientation = Orient.H then '-' else '|')
      else 'x'
    if l.orientation = Orient.H then
      hlineW w l.p1.y l.p1.x c (l.length + 1).toNat
    else
      vlineW w l.p1.y l.p1.x c (l.length + 1).toNat
  else w

/-- Line.undraw of the source: blanks the same run of cells. -/
def Line.undraw (l : Line) (w : Window) : Window :=
  if l.validate then
    if l.orientation = Orient.H then
      hlineW w l.p1.y l.p1.x ' ' (l.length + 1).toNat
    else
      vlineW w l.p1.y l.p1.x ' ' (l.length + 1).toNat
  else w

/-- A rectangle: its four border lines plus the render-style tag, exactly the
fields set by Rect.__init__. -/
structure Rect where
  l1 : Line
  l2 : Line
  l3 : Line
  l4 : Line
  ltype : LType
  deriving DecidableEq

/-- Rect.__init__ of the source, canonical (x, y, width, height) form: the
four border lines with the off-by-one corner adjustments of the source. -/
def mkRect (x y width height : Int) (lt : LType) : Rect :=
  { l1 := mkLine ⟨x, y + 1⟩ ⟨x, y + height⟩
    l2 := mkLine ⟨x + width + 1, y + 1⟩ ⟨x + width + 1, y + height⟩
    l3 := mkLine ⟨x, y⟩ ⟨x + width + 1, y⟩
    l4 := mkLine ⟨x, y + height + 1⟩ ⟨x + width + 1, y + height + 1⟩
    ltype := lt }

/-- Rect.__init__ of the source, two-corner form: width and height are
reduced by one because the border lines already span the full edge. -/
def mkRectPts (a b : Point) (lt : LType) : Rect :=
  mkRect a.x a.y (b.x - a.x - 1) (b.y - a.y - 1) lt

/-- Rect.draw of the source: draws the four border lines in order. -/
def Rect.draw (r : Rect) (w : Window) : Window :=
  r.l4.draw r.ltype (r.l3.draw r.ltype (r.l2.draw r.ltype (r.l1.draw r.ltype w)))

/-- Rect.undraw of the source: blanks the four border lines in order. -/
def Rect.undraw (r : Rect) (w : Window) : Window :=
  r.l4.undraw (r.l3.undraw (r.l2.undraw (r.l1.undraw w)))

/-- Rect.touches of the source: the point touches any of the four border
lines. -/
def Rect.touches (r : Rect) (p : Point) : Bool :=
  r.l1.touches p || r.l2.touches p || r.l3.touches p || r.l4.touches p

/-- Rect.contains of the source: strict interior test against the stored
border line coordinates. -/
def Rect.contains (r : Rect) (p : Point) : Bool :=
  decide (r.l2.p1.x > p.x ∧ p.x > r.l1.p1.x) &&
  decide (r.l4.p1.y > p.y ∧ p.y > r.l3.p1.y)

/-- The figure registry self.items: a defaultdict with the keys lines,
rects and points, each an insertion-ordered list. -/
structure Items where
  lines : List Line
  rects : List Rect
  points : List Point

/-- Picasso._is_border restricted to the figure registry: whether the point
touches any registered figure. -/
def figuresTouch (it : Items) (p : Point) : Bool :=
  it.lines.any (fun l => l.touches p) ||
  it.rects.any (fun r => r.touches p) ||
  it.points.any (fun q => q.touches p)

/-- Picasso._is_border of the source: the point touches the canvas border
rectangle or any registered figure. -/
def is_border (canvas : Rect) (it : Items) (p : Point) : Bool :=
  canvas.touches p || figuresTouch it p

/-- The mutable state touched by bucket_fill: the window and the figure
registry (the canvas itself is fixed during a fill). -/
structure FillSt where
  window : Window
  items : Items

/-- One painting step of bucket_fill: the source calls draw_point (which
draws the point and appends it to items) and then draws and appends the
same point once more, so the point is written twice and registered twice. -/
def paintP (s : FillSt) (p : Point) (c : Char) : FillSt :=
  { window := p.draw c (p.draw c s.window)
    items := { lines := s.items.lines
               rects := s.items.rects
               points := (s.items.points ++ [p]) ++ [p] } }

/-- Picasso.bucket_fill of the source, with explicit recursion fuel: return
unchanged if the point is a border; otherwise paint and register the point,
then recurse into the left, up, right and down neighbours that the canvas
strictly contains.  The Python recursion has no fuel; the termination
theorems below show the result is fuel-independent once the fuel exceeds
the number of unbordered interior cells, so any such fuel value gives the
Python semantics. -/
def bucket_fill (r : Rect) (c : Char) : Nat → FillSt → Point → FillSt
  | 0, s, _ => s
  | Nat.succ n, s, p =>
    if is_border r s.items p then s
    else
      let s1 := paintP s p c
      let lf := p.get_left
      let up := p.get_up
      let rt := p.get_right
      let dn := p.get_down
      let s2 := if r.contains lf then bucket_fill r c n s1 lf else s1
      let s3 := if r.contains up then bucket_fill r c n s2 up else s2
      let s4 := if r.contains rt then bucket_fill r c n s3 rt else s3
      if r.contains dn then bucket_fill r c n s4 dn else s4

/-- The four exploration directions of bucket_fill. -/
inductive Dir where
  | left
  | up
  | right
  | down
  deriving DecidableEq

/-- Neighbour of a point in a given direction. -/
def Point.nbr (p : Point) : Dir → Point
  | Dir.left => p.get_left
  | Dir.up => p.get_up
  | Dir.right => p.get_right
  | Dir.down => p.get_down

/-- bucket_fill generalised over the neighbour exploration order: the
directions are tried in the order given by ord.  With
ord = [left, up, right, down] this is exactly bucket_fill (bridge lemma
below); it is the subject of the traversal-order-independence claim. -/
def fillOrd (r : Rect) (c : Char) (ord : List Dir) : Nat → FillSt → Point → FillSt
  | 0, s, _ => s
  | Nat.succ n, s, p =>
    if is_border r s.items p then s
    else
      ord.foldl
        (fun t d =>
          if r.contains (p.nbr d) then fillOrd r c ord n t (p.nbr d) else t)
        (paintP s p c)

/-- Greedy run of decimal digits, the deterministic equivalent of a leading
regex group of one or more digits followed by a non-digit. -/
def takeDigits : List Char → List Char × List Char
  | [] => ([], [])
  | c :: cs =>
    if c.isDigit then
      let pr := takeDigits cs
      (c :: pr.1, pr.2)
    else ([], c :: cs)

/-- Numeric value of a digit run, as Python int() of the matched group. -/
def digitsVal (l : List Char) : Nat :=
  l.foldl (fun a c => 10 * a + (c.toNat - 48)) 0

/-- Parse one decimal number group; fails when no digit is present. -/
def parseNum (l : List Char) : Option (Nat × List Char) :=
  let pr := takeDigits l
  if pr.1.isEmpty then none else some (digitsVal pr.1, pr.2)

/-- A word character for the fill glyph group: ASCII letter, digit or
underscore. -/
def isWordChar (c : Char) : Bool := c.isAlphanum || c = '_'

/-- The quit command pattern: exactly the single letter Q. -/
def matchQuit (s : String) : Bool := decide (s.data = ['Q'])

/-- The canvas command pattern C w h with w and h digit groups. -/
def matchCanvas (s : String) : Option (Nat × Nat) :=
  match s.data with
  | 'C' :: ' ' :: rest =>
    match parseNum rest with
    | some (w, ' ' :: r2) =>
      match parseNum r2 with
      | some (h, []) => some (w, h)
      | _ => none
    | _ => none
  | _ => none

/-- Shared tail of the line and rectangle patterns: four digit groups
separated by single spaces, ending the input. -/
def matchFourNums (l : List Char) : Option (Nat × Nat × Nat × Nat) :=
  match parseNum l with
  | some (a, ' ' :: r1) =>
    match parseNum r1 with
    | some (b, ' ' :: r2) =>
      match parseNum r2 with
      | some (c, ' ' :: r3) =>
        match parseNum r3 with
        | some (d, []) => some (a, b, c, d)
        | _ => none
      | _ => none
    | _ => none
  | _ => none

/-- The line command pattern L x1 y1 x2 y2. -/
def matchLine (s : String) : Option (Nat × Nat × Nat × Nat) :=
  match s.data with
  | 'L' :: ' ' :: rest => matchFourNums rest
  | _ => none

/-- The rectangle command pattern R x1 y1 x2 y2. -/
def matchRect (s : String) : Option (Nat × Nat × Nat × Nat) :=
  match s.data with
  | 'R' :: ' ' :: rest => matchFourNums rest
  | _ => none

/-- The bucket fill command pattern B x y c with c one word character. -/
def matchFill (s : String) : Option (Nat × Nat × Char) :=
  match s.data with
  | 'B' :: ' ' :: rest =>
    match parseNum rest with
    | some (x, ' ' :: r1) =>
      match parseNum r1 with
      | some (y, ' ' :: r2) =>
        match r2 with
        | [c] => if isWordChar c then some (x, y, c) else none
        | _ => none
      | _ => none
    | _ => none
  | _ => none

/-- Integer range lo, lo + 1, ..., hi - 1, used to enumerate interior
cells. -/
def intRange (lo hi : Int) : List Int :=
  (List.range (hi - lo).toNat).map (fun (i : Nat) => lo + (i : Int))

/-- The interior cells of a rectangle: exactly the points it contains. -/
def interiorPts (r : Rect) : List Point :=
  (intRange (r.l1.p1.x + 1) r.l2.p1.x).flatMap
    (fun px => (intRange (r.l3.p1.y + 1) r.l4.p1.y).map (fun py => ⟨px, py⟩))

/-- Number of interior cells of the canvas that no border blocks yet: the
measure that each productive bucket_fill step strictly decreases. -/
def unbordered (r : Rect) (it : Items) : Nat :=
  ((interiorPts r).filter (fun q => !(is_border r it q))).length

/-- Fuel that the termination theorem proves sufficient for bucket_fill. -/
def fillFuel (r : Rect) (it : Items) : Nat := unbordered r it + 2

/-- The source constant Picasso.MAX_Y. -/
def MAX_Y : Nat := 28

/-- The interpreter state: the surface width reported by the render
surface (window.getmaxyx()[1], fixed for the session), the window
contents, the active canvas, the figure registry, and the warning messages
shown so far (Picasso.warning calls, in order). -/
structure Picasso where
  maxX : Nat
  window : Window
  canvas : Option Rect
  items : Items
  messages : List String

/-- Picasso.warning of the source: shows the message and leaves everything
else unchanged. -/
def warn (s : Picasso) (m : String) : Picasso :=
  { s with messages := s.messages ++ [m] }

/-- Picasso.draw_canvas of the source: installs and draws the canvas
rectangle anchored at the origin with the canvas style. -/
def draw_canvas (s : Picasso) (w h : Int) : Picasso :=
  let r := mkRect 0 0 w h LType.Canvas
  { s with canvas := some r, window := r.draw s.window }

/-- Picasso.draw_line of the source: draws the line with the regular style
and appends it to the registry. -/
def draw_line (s : Picasso) (l : Line) : Picasso :=
  { s with window := l.draw LType.Regular s.window
           items := { s.items with lines := s.items.lines ++ [l] } }

/-- Picasso.draw_rect of the source: draws the rectangle built from the two
corners and appends it to the registry. -/
def draw_rect (s : Picasso) (a b : Point) : Picasso :=
  let r := mkRectPts a b LType.Regular
  { s with window := r.draw s.window
           items := { s.items with rects := s.items.rects ++ [r] } }

/-- Point.__repr__ of the source, used in warning messages. -/
def reprPoint (p : Point) : String :=
  "Point(" ++ toString p.x ++ ", " ++ toString p.y ++ ")"

/-- Line.__repr__ of the source, used in warning messages. -/
def reprLine (l : Line) : String :=
  "Line(" ++ reprPoint l.p1 ++ ", " ++ reprPoint l.p2 ++ ")"

/-- Outcome of one command: quit ends the session, next continues with the
updated state. -/
inductive Outcome where
  | quit
  | next (s : Picasso)

/-- Picasso.issue_command of the source: the command dispatch chain in
source order (quit, canvas, missing-canvas guard, line, rectangle, fill,
unknown).  The fill runs bucket_fill with the fuel that the termination
theorem proves sufficient, so it has the semantics of the unbounded Python
recursion. -/
def issue_command (s : Picasso) (command : String) : Outcome :=
  if matchQuit command then Outcome.quit
  else
    match matchCanvas command with
    | some (w, h) =>
      if s.maxX ≤ w then Outcome.next (warn s "Canvas is too wide")
      else if MAX_Y ≤ h then Outcome.next (warn s "Canvas is too tall")
      else
        let s1 :=
          match s.canvas with
          | some r => { s with window := r.undraw s.window }
          | none => s
        Outcome.next (draw_canvas s1 (w : Int) (h : Int))
    | none =>
      match s.canvas with
      | none =>
        Outcome.next (warn s "Please draw a canvas before issuing other commands")
      | some cv =>
        match matchLine command with
        | some (x1, y1, x2, y2) =>
          let a : Point := ⟨(x1 : Int), (y1 : Int)⟩
          let b : Point := ⟨(x2 : Int), (y2 : Int)⟩
          let l := mkLine a b
          if ¬ (cv.contains a = true) ∨ ¬ (cv.contains b = true) then
            Outcome.next (warn s "Line does not fit current canvas")
          else if l.validate then Outcome.next (draw_line s l)
          else
            Outcome.next (warn s ("Invalid line " ++ reprLine l))
        | none =>
          match matchRect command with
          | some (x1, y1, x2, y2) =>
            let a : Point := ⟨(x1 : Int), (y1 : Int)⟩
            let b : Point := ⟨(x2 : Int), (y2 : Int)⟩
            if cv.contains a && cv.contains b then
              Outcome.next (draw_rect s a b)
            else
              Outcome.next (warn s "Rectangle does not fit current canvas")
          | none =>
            match matchFill command with
            | some (x, y, c) =>
              let p : Point := ⟨(x : Int), (y : Int)⟩
              if cv.contains p then
                let f := bucket_fill cv c (fillFuel cv s.items)
                           ⟨s.window, s.items⟩ p
                Outcome.next { s with window := f.window, items := f.items }
              else
                Outcome.next (warn s "Point is outside current canvas")
            | none =>
              Outcome.next
                (warn s ("Unknown command: " ++ "\"" ++ command ++ "\""))

/-- Membership of a point in a list of points, via the source Point.eq. -/
def pmem (p : Point) (l : List Point) : Bool := l.any (fun q => Point.eq q p)

/-- The four axis neighbours of a point, in the exploration order of
bucket_fill (left, up, right, down). -/
def nbrsList (p : Point) : List Point := [p.get_left, p.get_up, p.get_right, p.get_down]

/-- Breadth-first closure of the cells reachable inside the canvas without
stepping on a border, used to state the end-to-end fill scenario. -/
def bfsReach (r : Rect) (B : Point → Bool) : Nat → List Point → List Point → List Point
  | 0, acc, _ => acc
  | Nat.succ n, acc, frontier =>
    let fresh := ((frontier.flatMap nbrsList).filter
        (fun q => r.contains q && !(B q) && !(pmem q acc))).foldl
        (fun a q => if pmem q a then a else a ++ [q]) []
    bfsReach r B n (acc ++ fresh) fresh

/-- Cells reachable from a seed without crossing the border predicate B:
the seed together with its breadth-first closure through interior cells. -/
def reachableFrom (r : Rect) (B : Point → Bool) (seed : Point) : List Point :=
  if B seed then [] else bfsReach r B (interiorPts r).length [seed] [seed]

/-- The state right after Picasso.__init__: blank window, no canvas, empty
registry.  The render surface width (window.getmaxyx()[1]) is taken to be
80, a standard terminal width; it only matters as the canvas width bound. -/
def initialPicasso : Picasso := ⟨80, fun _ => ' ', none, ⟨[], [], []⟩, []⟩

/-- Issue one command and keep the resulting state (the end-to-end scenario
never quits). -/
def stepCmd (s : Picasso) (c : String) : Picasso :=
  match issue_command s c with
  | Outcome.quit => s
  | Outcome.next t => t

/-- The state after C 20 4, L 1 2 6 2, L 6 3 6 4, R 16 1 20 3 - the grid
just before the bucket fill of the end-to-end scenario. -/
def scenarioPre : Picasso :=
  stepCmd (stepCmd (stepCmd (stepCmd initialPicasso "C 20 4") "L 1 2 6 2") "L 6 3 6 4") "R 16 1 20 3"

/-- The final state of the end-to-end scenario, after B 10 3 o. -/
def scenarioFin : Picasso := stepCmd scenarioPre "B 10 3 o"

/-- The canvas created by C 20 4. -/
def scenarioCanvas : Rect := mkRect 0 0 20 4 LType.Canvas

/-- The cells reachable from (10, 3) without crossing the canvas border,
the two lines or the rectangle of the scenario: the border predicate is
is_border of the pre-fill state, exactly what bucket_fill consults. -/
def scenarioReach : List Point :=
  reachableFrom scenarioCanvas (fun q => is_border scenarioCanvas scenarioPre.items q) ⟨10, 3⟩

/-- line_to_points of the repository test suite: the cells a line occupies
(p1 through p1 + length along the varying axis). -/
def line_to_points (l : Line) : List Point :=
  if l.orientation = Orient.H then
    (intRange l.p1.x (l.p1.x + l.length + 1)).map (fun x => ⟨x, l.p1.y⟩)
  else if l.orientation = Orient.V then
    (intRange l.p1.y (l.p1.y + l.length + 1)).map (fun y => ⟨l.p1.x, y⟩)
  else []

/-- rect_to_points of the repository test suite: the cells of the four
border lines. -/
def rect_to_points (r : Rect) : List Point :=
  line_to_points r.l1 ++ line_to_points r.l2 ++ line_to_points r.l3 ++ line_to_points r.l4

/-- Reachability of a cell from the fill seed: the seed itself when it is
not a border, extended step by step through canvas-interior cells that the
border predicate does not block.  This is the specification-side notion the
flood fill is proved to compute, for any neighbour exploration order. -/
inductive Reach (r : Rect) (B : Point → Bool) (p0 : Point) : Point → Prop where
  | refl : B p0 = false → Reach r B p0 p0
  | step {q q' : Point} : Reach r B p0 q → q' ∈ nbrsList q → r.contains q' = true →
      B q' = false → Reach r B p0 q'

/-- How a fill extends the state: lines and rectangles unchanged, painted
points only added, every newly registered point painted with the fill
glyph, every other cell untouched. -/
def FillExt (c : Char) (s t : FillSt) : Prop :=
  t.items.lines = s.items.lines ∧
  t.items.rects = s.items.rects ∧
  (∀ q, q ∈ s.items.points → q ∈ t.items.points) ∧
  (∀ q, q ∈ t.items.points → q ∉ s.items.points → t.window q = c) ∧
  (∀ q, (q ∉ t.items.points ∨ q ∈ s.items.points) → t.window q = s.window q)

/-! ### Geometry lemmas -/

/-- The orientation stored by Line.__init__ is get_orientation of the
original endpoints (computed before any swap). -/
theorem mkLine_orient (a b : Point) : (mkLine a b).orientation = get_orientation a b := rfl

/-- Line.__init__ either keeps the endpoints or swaps them. -/
theorem mkLine_cases (a b : Point) :
    ((mkLine a b).p1 = a ∧ (mkLine a b).p2 = b) ∨
    ((mkLine a b).p1 = b ∧ (mkLine a b).p2 = a) := by
  unfold mkLine
  rcases h : get_orientation a b <;> simp only [h] <;> (try split) <;> simp

/-- Characterisation of Line.touches for an arbitrary constructed line. -/
theorem line_touches_iff (l : Line) (p : Point) :
    l.touches p = true ↔
      ((l.orientation = Orient.V ∧ p.x = l.p1.x ∧ l.p1.y ≤ p.y ∧ p.y ≤ l.p2.y) ∨
       (l.orientation = Orient.H ∧ p.y = l.p1.y ∧ l.p1.x ≤ p.x ∧ p.x ≤ l.p2.x)) := by
  unfold Line.touches
  split_ifs with h1 h2 <;> simp_all <;> try tauto

/-- The stored first-endpoint coordinates of the four border lines of a
rectangle, for arbitrary construction parameters. -/
theorem mkRect_coord (x y w h : Int) (lt : LType) :
    (mkRect x y w h lt).l1.p1.x = x ∧ (mkRect x y w h lt).l2.p1.x = x + w + 1 ∧
    (mkRect x y w h lt).l3.p1.y = y ∧ (mkRect x y w h lt).l4.p1.y = y + h + 1 := by
  refine ⟨?_, ?_, ?_, ?_⟩ <;>
    [rcases mkLine_cases ⟨x, y + 1⟩ ⟨x, y + h⟩ with ⟨h1, _⟩ | ⟨h1, _⟩;
     rcases mkLine_cases ⟨x + w + 1, y + 1⟩ ⟨x + w + 1, y + h⟩ with ⟨h1, _⟩ | ⟨h1, _⟩;
     rcases mkLine_cases ⟨x, y⟩ ⟨x + w + 1, y⟩ with ⟨h1, _⟩ | ⟨h1, _⟩;
     rcases mkLine_cases ⟨x, y + h + 1⟩ ⟨x + w + 1, y + h + 1⟩ with ⟨h1, _⟩ | ⟨h1, _⟩] <;>
    simp [mkRect] at h1 ⊢ <;> simp [h1]

/-! ### Claim theorems: geometry -/

/-- C10: Point.__ne__ returns the value of Point.__eq__ instead of its
negation, so p != q agrees with p == q for all points, p != p is true for
every point, and at the concrete point (0, 0) the inequality test differs
from the complement of the equality test. -/
theorem claim_C10_point_ne (p q : Point) :
    Point.ne p q = Point.eq p q ∧ Point.ne p p = true ∧
    Point.ne ⟨0, 0⟩ ⟨0, 0⟩ = true ∧ (!(Point.eq ⟨0, 0⟩ ⟨0, 0⟩)) = false := by
  refine ⟨rfl, ?_, by decide, by decide⟩
  simp [Point.ne, Point.eq]

/-- C9: Line construction normalises the endpoint order.  For two points
differing only along one axis, the stored p1 is the endpoint with the
smaller coordinate on the varying axis (vertical lines sort by y,
horizontal lines sort by x); the Line record is immutable afterwards, so
this ordering never changes. -/
theorem claim_C9_line_normalized (a b : Point) :
    (a.x = b.x → a.y ≠ b.y →
      (mkLine a b).p1 = (if a.y ≤ b.y then a else b) ∧
      (mkLine a b).p2 = (if a.y ≤ b.y then b else a) ∧
      (mkLine a b).p1.y = min a.y b.y ∧ (mkLine a b).p2.y = max a.y b.y) ∧
    (a.y = b.y → a.x ≠ b.x →
      (mkLine a b).p1 = (if a.x ≤ b.x then a else b) ∧
      (mkLine a b).p2 = (if a.x ≤ b.x then b else a) ∧
      (mkLine a b).p1.x = min a.x b.x ∧ (mkLine a b).p2.x = max a.x b.x) := by
  constructor
  · intro hx hy
    have ho : get_orientation a b = Orient.V := by simp [get_orientation, hx]
    simp only [mkLine, ho]
    split_ifs <;> simp <;> omega
  · intro hy hx
    have ho : get_orientation a b = Orient.H := by
      simp [get_orientation, hy]
      omega
    simp only [mkLine, ho]
    split_ifs <;> simp <;> omega

/-- Witness for C9: the vertical line from (1, 5) to (1, 2) is stored with
the smaller y first. -/
theorem claim_C9_line_normalized_witness :
    (mkLine ⟨1, 5⟩ ⟨1, 2⟩).p1.y = min 5 2 ∧ (mkLine ⟨1, 5⟩ ⟨1, 2⟩).p2.y = max 5 2 :=
  ⟨((claim_C9_line_normalized ⟨1, 5⟩ ⟨1, 2⟩).1 rfl (by decide)).2.2.1,
   ((claim_C9_line_normalized ⟨1, 5⟩ ⟨1, 2⟩).1 rfl (by decide)).2.2.2⟩

/-- C5: Line.touches is true exactly on the inclusive span of the stored
endpoints along the line axis (point.x equal to the line x and p1.y <=
point.y <= p2.y for a vertical line, symmetrically for a horizontal line),
and is false for every point otherwise, in particular always false when
the constructed line is diagonal. -/
theorem claim_C5_line_touches (a b p : Point) :
    ((mkLine a b).touches p = true ↔
      (((mkLine a b).orientation = Orient.V ∧ p.x = (mkLine a b).p1.x ∧
        (mkLine a b).p1.y ≤ p.y ∧ p.y ≤ (mkLine a b).p2.y) ∨
       ((mkLine a b).orientation = Orient.H ∧ p.y = (mkLine a b).p1.y ∧
        (mkLine a b).p1.x ≤ p.x ∧ p.x ≤ (mkLine a b).p2.x))) ∧
    ((mkLine a b).orientation = Orient.diag → (mkLine a b).touches p = false) := by
  refine ⟨line_touches_iff _ _, ?_⟩
  intro hd
  rw [← Bool.not_eq_true]
  intro ht
  rcases (line_touches_iff _ _).1 ht with ⟨ho, _⟩ | ⟨ho, _⟩ <;> simp [hd] at ho

/-- Witness for C5: the diagonal line from (0, 0) to (1, 2) touches
nothing, in particular not (5, 5). -/
theorem claim_C5_line_touches_witness :
    (mkLine ⟨0, 0⟩ ⟨1, 2⟩).touches ⟨5, 5⟩ = false :=
  (claim_C5_line_touches ⟨0, 0⟩ ⟨1, 2⟩ ⟨5, 5⟩).2 (by decide)

/-- C4: Rect.contains is true exactly when the point is strictly between
the rectangle's opposite border coordinates on both axes, Rect.touches is
true exactly when the point lies on one of the four border lines, and no
point is both contained and touching. -/
theorem claim_C4_rect_contains_touches (x y w h : Int) (lt : LType) (p : Point) :
    ((mkRect x y w h lt).contains p = true ↔
      (x < p.x ∧ p.x < x + w + 1 ∧ y < p.y ∧ p.y < y + h + 1)) ∧
    ((mkRect x y w h lt).touches p = true ↔
      ((mkRect x y w h lt).l1.touches p = true ∨ (mkRect x y w h lt).l2.touches p = true ∨
       (mkRect x y w h lt).l3.touches p = true ∨ (mkRect x y w h lt).l4.touches p = true)) ∧
    ((mkRect x y w h lt).contains p = true → (mkRect x y w h lt).touches p = false) := by
  obtain ⟨c1, c2, c3, c4⟩ := mkRect_coord x y w h lt
  refine ⟨?_, ?_, ?_⟩
  · simp [Rect.contains, c1, c2, c3, c4]
    tauto
  · simp [Rect.touches]
    tauto
  · intro hc
    simp [Rect.contains, c1, c2, c3, c4] at hc
    have hw : 1 ≤ w := by omega
    have hh : 1 ≤ h := by omega
    have o1 : (mkRect x y w h lt).l1.orientation = Orient.V := by
      simp [mkRect, mkLine_orient, get_orientation]
    have o2 : (mkRect x y w h lt).l2.orientation = Orient.V := by
      simp [mkRect, mkLine_orient, get_orientation]
    have o3 : (mkRect x y w h lt).l3.orientation = Orient.H := by
      simp [mkRect, mkLine_orient, get_orientation]
      omega
    have o4 : (mkRect x y w h lt).l4.orientation = Orient.H := by
      simp [mkRect, mkLine_orient, get_orientation]
      omega
    have t1 : (mkRect x y w h lt).l1.touches p = false := by
      rw [← Bool.not_eq_true]
      intro ht
      rcases (line_touches_iff _ _).1 ht with ⟨_, hx, _⟩ | ⟨ho, _, _⟩
      · rw [c1] at hx
        omega
      · simp [o1] at ho
    have t2 : (mkRect x y w h lt).l2.touches p = false := by
      rw [← Bool.not_eq_true]
      intro ht
      rcases (line_touches_iff _ _).1 ht with ⟨_, hx, _⟩ | ⟨ho, _, _⟩
      · rw [c2] at hx
        omega
      · simp [o2] at ho
    have t3 : (mkRect x y w h lt).l3.touches p = false := by
      rw [← Bool.not_eq_true]
      intro ht
      rcases (line_touches_iff _ _).1 ht with ⟨ho, _, _⟩ | ⟨_, hy, _⟩
      · simp [o3] at ho
      · rw [c3] at hy
        omega
    have t4 : (mkRect x y w h lt).l4.touches p = false := by
      rw [← Bool.not_eq_true]
      intro ht
      rcases (line_touches_iff _ _).1 ht with ⟨ho, _, _⟩ | ⟨_, hy, _⟩
      · simp [o4] at ho
      · rw [c4] at hy
        omega
    simp [Rect.touches, t1, t2, t3, t4]

/-- Witness for C4: the 5 by 5 rectangle at the origin contains (2, 2), so
its border does not touch (2, 2). -/
theorem claim_C4_rect_contains_touches_witness :
    (mkRect 0 0 5 5 LType.Regular).touches ⟨2, 2⟩ = false :=
  (claim_C4_rect_contains_touches 0 0 5 5 LType.Regular ⟨2, 2⟩).2.2 (by decide)

set_option maxRecDepth 4000 in
/-- C1: in the end-to-end scenario C 20 4, L 1 2 6 2, L 6 3 6 4,
R 16 1 20 3, B 10 3 o, the final grid paints with o every cell reachable
from (10, 3) without crossing the canvas border, the two lines or the
rectangle; leaves the rectangle interior (17, 2), (18, 2), (19, 2) blank;
leaves the two pockets (1, 3)-(5, 3) and (1, 4)-(5, 4) blank; and leaves
every cell of the two lines, of the rectangle and of the canvas border
with the same glyph it had before the fill. -/
theorem claim_C1_end_to_end :
    (∀ q ∈ scenarioReach, scenarioFin.window q = 'o') ∧
    (∀ q ∈ ([⟨17, 2⟩, ⟨18, 2⟩, ⟨19, 2⟩] : List Point), scenarioFin.window q = ' ') ∧
    (∀ q ∈ ([⟨1, 3⟩, ⟨2, 3⟩, ⟨3, 3⟩, ⟨4, 3⟩, ⟨5, 3⟩,
             ⟨1, 4⟩, ⟨2, 4⟩, ⟨3, 4⟩, ⟨4, 4⟩, ⟨5, 4⟩] : List Point),
      scenarioFin.window q = ' ') ∧
    (∀ q ∈ line_to_points (mkLine ⟨1, 2⟩ ⟨6, 2⟩) ++ line_to_points (mkLine ⟨6, 3⟩ ⟨6, 4⟩) ++
           rect_to_points (mkRectPts ⟨16, 1⟩ ⟨20, 3⟩ LType.Regular) ++
           rect_to_points scenarioCanvas,
      scenarioFin.window q = scenarioPre.window q) := by
  decide

/-! ### Claim theorems: command dispatch -/

/-- C3 counterexample: the claim asserts that an unrecognised input line
produces a warning echoing the offending text in both interpreter states,
but in the NoCanvas state the source reaches the missing-canvas guard
first: issuing the unmatched line hello on the initial state produces the
fixed please-draw-a-canvas warning, whose message differs from the echo
warning. -/
theorem claim_C3_counterexample :
    issue_command initialPicasso "hello" =
      Outcome.next (warn initialPicasso "Please draw a canvas before issuing other commands") ∧
    (warn initialPicasso "Please draw a canvas before issuing other commands").messages ≠
      (warn initialPicasso ("Unknown command: " ++ "\"" ++ "hello" ++ "\"")).messages := by
  constructor
  · rfl
  · decide

/-- C3 (amended): for every input line matching none of the five command
shapes, the state is unchanged apart from one warning message; in the
CanvasReady state the warning echoes the offending text, while in the
NoCanvas state it is the fixed please-draw-a-canvas warning. -/
theorem claim_C3_unknown_command (s : Picasso) (cmd : String)
    (hq : matchQuit cmd = false) (hc : matchCanvas cmd = none)
    (hl : matchLine cmd = none) (hr : matchRect cmd = none)
    (hf : matchFill cmd = none) :
    issue_command s cmd =
      Outcome.next (warn s
        (match s.canvas with
         | none => "Please draw a canvas before issuing other commands"
         | some _ => "Unknown command: " ++ "\"" ++ cmd ++ "\"")) := by
  cases hcan : s.canvas with
  | none => simp [issue_command, hq, hc, hcan]
  | some cv => simp [issue_command, hq, hc, hl, hr, hf, hcan]

/-- Witness for the amended C3 at the unmatched line hello on the initial
state. -/
theorem claim_C3_unknown_command_witness :
    issue_command initialPicasso "hello" =
      Outcome.next (warn initialPicasso
        (match initialPicasso.canvas with
         | none => "Please draw a canvas before issuing other commands"
         | some _ => "Unknown command: " ++ "\"" ++ "hello" ++ "\"")) :=
  claim_C3_unknown_command initialPicasso "hello" rfl rfl rfl rfl rfl

/-- C6: whenever a command produces a warning (its message list grew), no
drawing side effect happened: canvas, figure registry and rendered grid are
exactly as before the command, and exactly one warning message was
appended. -/
theorem claim_C6_failure_no_side_effect (s : Picasso) (cmd : String) (s' : Picasso)
    (h : issue_command s cmd = Outcome.next s')
    (hm : s'.messages ≠ s.messages) :
    s'.canvas = s.canvas ∧ s'.items = s.items ∧ s'.window = s.window ∧
    ∃ m, s'.messages = s.messages ++ [m] := by
  simp only [issue_command] at h
  by_cases hq : matchQuit cmd = true
  · rw [if_pos hq] at h
    exact Outcome.noConfusion h
  rw [if_neg hq] at h
  rcases hcv : matchCanvas cmd with _ | ⟨w, hgt⟩ <;> simp only [hcv] at h
  · -- no canvas-command match: dispatch on the canvas presence
    rcases hcan : s.canvas with _ | cv <;> simp only [hcan] at h
    · injection h with h
      subst h
      exact ⟨hcan, rfl, rfl, _, rfl⟩
    · rcases hl : matchLine cmd with _ | ⟨x1, y1, x2, y2⟩ <;> simp only [hl] at h
      · rcases hr : matchRect cmd with _ | ⟨x1, y1, x2, y2⟩ <;> simp only [hr] at h
        · rcases hf : matchFill cmd with _ | ⟨x, y, c⟩ <;> simp only [hf] at h
          · injection h with h
            subst h
            exact ⟨hcan, rfl, rfl, _, rfl⟩
          · split at h <;> (injection h with h; subst h)
            · exact absurd rfl hm
            · exact ⟨hcan, rfl, rfl, _, rfl⟩
        · split at h <;> (injection h with h; subst h)
          · exact absurd rfl hm
          · exact ⟨hcan, rfl, rfl, _, rfl⟩
      · split at h
        · injection h with h
          subst h
          exact ⟨hcan, rfl, rfl, _, rfl⟩
        · split at h <;> (injection h with h; subst h)
          · exact absurd rfl hm
          · exact ⟨hcan, rfl, rfl, _, rfl⟩
  · -- canvas command matched
    split at h
    · injection h with h
      subst h
      exact ⟨rfl, rfl, rfl, _, rfl⟩
    · split at h
      · injection h with h
        subst h
        exact ⟨rfl, rfl, rfl, _, rfl⟩
      · injection h with h
        subst h
        rcases hcan : s.canvas with _ | cv <;> simp only [hcan] at hm <;> exact absurd rfl hm

/-- Witness for C6: the line command on the initial (canvas-less) state
warns and changes nothing else. -/
theorem claim_C6_failure_no_side_effect_witness :
    (warn initialPicasso "Please draw a canvas before issuing other commands").canvas =
      initialPicasso.canvas ∧
    (warn initialPicasso "Please draw a canvas before issuing other commands").items =
      initialPicasso.items ∧
    (warn initialPicasso "Please draw a canvas before issuing other commands").window =
      initialPicasso.window ∧
    ∃ m, (warn initialPicasso "Please draw a canvas before issuing other commands").messages =
      initialPicasso.messages ++ [m] :=
  claim_C6_failure_no_side_effect initialPicasso "L 1 2 6 2" _ rfl (by decide)

/-- If a command matches the canvas pattern it is not the quit command. -/
theorem matchCanvas_ne_quit (cmd : String) (pr : Nat × Nat) (hc : matchCanvas cmd = some pr) :
    matchQuit cmd = false := by
  have hne : cmd.data ≠ ['Q'] := by
    intro he
    unfold matchCanvas at hc
    rw [he] at hc
    simp at hc
  simp [matchQuit, hne]

/-- C7: a valid canvas command that replaces an existing canvas keeps the
figure registry unchanged (stale lines, rectangles and fill points stay
registered and still act as figure borders for a later fill), erases the
old border, draws the new one, and adds no message. -/
theorem claim_C7_canvas_replace_keeps_registry (s : Picasso) (cmd : String) (w h : Nat) (r : Rect)
    (hc : matchCanvas cmd = some (w, h)) (hw : w < s.maxX) (hh : h < MAX_Y)
    (hcan : s.canvas = some r) :
    ∃ s', issue_command s cmd = Outcome.next s' ∧
      s'.items = s.items ∧
      s'.canvas = some (mkRect 0 0 (w : Int) (h : Int) LType.Canvas) ∧
      s'.messages = s.messages ∧
      s'.window = (mkRect 0 0 (w : Int) (h : Int) LType.Canvas).draw (r.undraw s.window) ∧
      (∀ q, figuresTouch s'.items q = figuresTouch s.items q) := by
  have hq := matchCanvas_ne_quit cmd (w, h) hc
  refine ⟨draw_canvas { s with window := r.undraw s.window } (w : Int) (h : Int),
          ?_, rfl, rfl, rfl, rfl, fun q => rfl⟩
  simp only [issue_command, hq, Bool.false_eq_true, if_false, hc, hcan]
  rw [if_neg (by omega), if_neg (by omega)]

/-- Witness for C7: issuing C 10 3 on the state that already has the 20 by
4 canvas keeps the registry. -/
theorem claim_C7_canvas_replace_keeps_registry_witness :
    ∃ s', issue_command (stepCmd initialPicasso "C 20 4") "C 10 3" = Outcome.next s' ∧
      s'.items = (stepCmd initialPicasso "C 20 4").items ∧
      s'.canvas = some (mkRect 0 0 (10 : Int) (3 : Int) LType.Canvas) ∧
      s'.messages = (stepCmd initialPicasso "C 20 4").messages ∧
      s'.window = (mkRect 0 0 (10 : Int) (3 : Int) LType.Canvas).draw
        ((mkRect 0 0 20 4 LType.Canvas).undraw (stepCmd initialPicasso "C 20 4").window) ∧
      (∀ q, figuresTouch s'.items q = figuresTouch (stepCmd initialPicasso "C 20 4").items q) :=
  claim_C7_canvas_replace_keeps_registry (stepCmd initialPicasso "C 20 4") "C 10 3" 10 3
    (mkRect 0 0 20 4 LType.Canvas) rfl (by decide) (by decide) rfl

/-! ### Flood fill: extension, measure and termination -/

/-- A point-figure scan of the registry is exactly list membership. -/
theorem points_any_touches (l : List Point) (q : Point) :
    (l.any fun x => x.touches q) = decide (q ∈ l) := by
  induction l with
  | nil => simp
  | cons a t ih =>
    have h1 : (a.touches q) = decide (q = a) := by
      simp only [Point.touches, Point.eq]
      apply decide_eq_decide.mpr
      constructor
      · rintro ⟨hx, hy⟩
        cases a
        cases q
        simp_all
      · intro h
        subst h
        exact ⟨rfl, rfl⟩
    simp only [List.any_cons, ih, h1, List.mem_cons]
    rw [show decide (q = a ∨ q ∈ t) = (decide (q = a) || decide (q ∈ t)) from by
      by_cases hv : q = a <;> by_cases hw : q ∈ t <;> simp [hv, hw]]

/-- Every registered point figure is a border. -/
theorem mem_points_border (r : Rect) (it : Items) (q : Point) (h : q ∈ it.points) :
    is_border r it q = true := by
  simp [is_border, figuresTouch, points_any_touches]
  tauto

/-- FillExt is reflexive. -/
theorem fillExt_refl (c : Char) (s : FillSt) : FillExt c s s := by
  refine ⟨rfl, rfl, fun q h => h, fun q h1 h2 => absurd h1 h2, fun q _ => rfl⟩

/-- FillExt is transitive. -/
theorem fillExt_trans {c : Char} {s t u : FillSt}
    (h1 : FillExt c s t) (h2 : FillExt c t u) : FillExt c s u := by
  obtain ⟨l1, r1, m1, n1, u1⟩ := h1
  obtain ⟨l2, r2, m2, n2, u2⟩ := h2
  refine ⟨l2.trans l1, r2.trans r1, fun q h => m2 q (m1 q h), ?_, ?_⟩
  · intro q hq hns
    by_cases ht : q ∈ t.items.points
    · rw [u2 q (Or.inr ht)]
      exact n1 q ht hns
    · exact n2 q hq ht
  · intro q hq
    rcases hq with hq | hq
    · have hnt : q ∉ t.items.points := fun h => hq (m2 q h)
      rw [u2 q (Or.inl hq)]
      exact u1 q (Or.inl hnt)
    · rw [u2 q (Or.inr (m1 q hq))]
      exact u1 q (Or.inr hq)

/-- Painting one unbordered point is a FillExt step. -/
theorem paint_ext {r : Rect} {c : Char} {s : FillSt} {p : Point}
    (hb : is_border r s.items p = false) : FillExt c s (paintP s p c) := by
  have hnp : p ∉ s.items.points := fun h => by
    rw [mem_points_border r s.items p h] at hb
    exact Bool.noConfusion hb
  refine ⟨rfl, rfl, ?_, ?_, ?_⟩
  · intro q h
    simp [paintP]
    tauto
  · intro q hq hns
    simp [paintP] at hq
    rcases hq with hq | hq
    · exact absurd hq hns
    · subst hq
      simp [paintP, Point.draw, setCell]
  · intro q hq
    have hqp : q ≠ p := by
      rcases hq with hq | hq
      · intro he
        subst he
        simp [paintP] at hq
      · intro he
        subst he
        exact hnp hq
    simp [paintP, Point.draw, setCell, hqp]

/-- Along a FillExt step the border predicate grows exactly by the newly
registered points. -/
theorem border_ext {c : Char} {s t : FillSt} (h : FillExt c s t) (r : Rect) (q : Point) :
    is_border r t.items q = (is_border r s.items q || decide (q ∈ t.items.points)) := by
  obtain ⟨hl, hr, hm, _, _⟩ := h
  have hm' := hm q
  apply Bool.eq_iff_iff.mpr
  simp only [is_border, figuresTouch, hl, hr, points_any_touches, Bool.or_eq_true,
    decide_eq_true_eq]
  tauto

/-- Unfolding of fillOrd at positive fuel. -/
theorem fillOrd_succ (r : Rect) (c : Char) (ord : List Dir) (n : Nat) (s : FillSt) (p : Point) :
    fillOrd r c ord (Nat.succ n) s p =
      if is_border r s.items p then s
      else ord.foldl
        (fun t d => if r.contains (p.nbr d) then fillOrd r c ord n t (p.nbr d) else t)
        (paintP s p c) := rfl

/-- Any fill run is a FillExt extension of its start state. -/
theorem fillOrd_ext (r : Rect) (c : Char) (ord : List Dir) :
    ∀ (n : Nat) (s : FillSt) (p : Point), FillExt c s (fillOrd r c ord n s p) := by
  intro n
  induction n using Nat.strong_induction_on with
  | _ n ih =>
    intro s p
    match n with
    | 0 => exact fillExt_refl c s
    | Nat.succ m =>
      rw [fillOrd_succ]
      split
      · exact fillExt_refl c s
      · rename_i hb
        rw [Bool.not_eq_true] at hb
        have hfold : ∀ (ords : List Dir) (t : FillSt),
            FillExt c t (ords.foldl
              (fun u d => if r.contains (p.nbr d) then fillOrd r c ord m u (p.nbr d) else u) t) := by
          intro ords
          induction ords with
          | nil => intro t; exact fillExt_refl c t
          | cons d rest ihf =>
            intro t
            simp only [List.foldl_cons]
            refine fillExt_trans ?_ (ihf _)
            split
            · exact ih m (Nat.lt_succ_self m) t (p.nbr d)
            · exact fillExt_refl c t
        exact fillExt_trans (paint_ext hb) (hfold ord (paintP s p c))

/-- The neighbour fold of a fill run is a FillExt extension. -/
theorem foldl_fill_ext (r : Rect) (c : Char) (ord : List Dir) (m : Nat) (p : Point) :
    ∀ (ords : List Dir) (t : FillSt),
      FillExt c t (ords.foldl
        (fun u d => if r.contains (p.nbr d) then fillOrd r c ord m u (p.nbr d) else u) t) := by
  intro ords
  induction ords with
  | nil => intro t; exact fillExt_refl c t
  | cons d rest ihf =>
    intro t
    simp only [List.foldl_cons]
    refine fillExt_trans ?_ (ihf _)
    split
    · exact fillOrd_ext r c ord m t (p.nbr d)
    · exact fillExt_refl c t

/-- A fill on an unbordered seed registers the seed. -/
theorem fillOrd_paints_seed (r : Rect) (c : Char) (ord : List Dir) (m : Nat) (s : FillSt)
    (p : Point) (hb : is_border r s.items p = false) :
    p ∈ (fillOrd r c ord (Nat.succ m) s p).items.points := by
  rw [fillOrd_succ, hb]
  simp only [Bool.false_eq_true, if_false]
  have hext := foldl_fill_ext r c ord m p ord (paintP s p c)
  exact hext.2.2.1 p (by simp [paintP])

/-- Membership in an integer range. -/
theorem mem_intRange {x lo hi : Int} : x ∈ intRange lo hi ↔ lo ≤ x ∧ x < hi := by
  unfold intRange
  rw [List.mem_map]
  constructor
  · rintro ⟨i, hi2, rfl⟩
    rw [List.mem_range] at hi2
    omega
  · rintro ⟨h1, h2⟩
    refine ⟨(x - lo).toNat, ?_, by omega⟩
    rw [List.mem_range]
    omega

/-- interiorPts enumerates exactly the contained cells. -/
theorem mem_interiorPts {r : Rect} {p : Point} : p ∈ interiorPts r ↔ r.contains p = true := by
  unfold interiorPts
  rw [List.mem_flatMap]
  simp only [List.mem_map, mem_intRange]
  constructor
  · rintro ⟨px, hpx, py, hpy, rfl⟩
    simp only [Rect.contains, Bool.and_eq_true, decide_eq_true_eq]
    exact ⟨⟨by omega, by omega⟩, by omega, by omega⟩
  · intro hc
    simp only [Rect.contains, Bool.and_eq_true, decide_eq_true_eq] at hc
    exact ⟨p.x, by omega, p.y, by omega, rfl⟩

/-- A pointwise-weaker filter keeps at most as many elements. -/
theorem filter_length_mono {α : Type} (l : List α) (P Q : α → Bool)
    (hmono : ∀ a ∈ l, Q a = true → P a = true) :
    (l.filter Q).length ≤ (l.filter P).length := by
  induction l with
  | nil => exact Nat.le_refl _
  | cons a t ih =>
    have ih' := ih (fun b hb hq => hmono b (List.mem_cons_of_mem a hb) hq)
    simp only [List.filter_cons]
    by_cases hq : Q a = true
    · rw [if_pos hq, if_pos (hmono a (List.mem_cons_self a t) hq)]
      exact Nat.succ_le_succ ih'
    · rw [if_neg hq]
      by_cases hp : P a = true
      · rw [if_pos hp]
        exact Nat.le_succ_of_le ih'
      · rw [if_neg hp]
        exact ih'

/-- A pointwise-weaker filter that loses a witness keeps strictly fewer
elements. -/
theorem filter_length_lt {α : Type} (l : List α) (P Q : α → Bool)
    (hmono : ∀ a ∈ l, Q a = true → P a = true) (x : α) (hx : x ∈ l)
    (hP : P x = true) (hQ : Q x = false) :
    (l.filter Q).length < (l.filter P).length := by
  induction l with
  | nil => cases hx
  | cons a t ih =>
    have hmono' : ∀ b ∈ t, Q b = true → P b = true :=
      fun b hb hq => hmono b (List.mem_cons_of_mem a hb) hq
    simp only [List.filter_cons]
    rcases List.mem_cons.mp hx with rfl | hx'
    · rw [hQ, hP]
      simp only [Bool.false_eq_true, if_false, if_true]
      exact Nat.lt_succ_of_le (filter_length_mono t P Q hmono')
    · by_cases hq : Q a = true
      · rw [if_pos hq, if_pos (hmono a (List.mem_cons_self a t) hq)]
        exact Nat.succ_lt_succ (ih hmono' hx')
      · rw [if_neg hq]
        by_cases hp : P a = true
        · rw [if_pos hp]
          exact Nat.lt_succ_of_lt (ih hmono' hx')
        · rw [if_neg hp]
          exact ih hmono' hx'

/-- The unbordered-interior measure never grows along a fill. -/
theorem unbordered_le_of_ext {c : Char} {s t : FillSt} (h : FillExt c s t) (r : Rect) :
    unbordered r t.items ≤ unbordered r s.items := by
  apply filter_length_mono
  intro q _ hb
  rw [Bool.not_eq_true'] at hb ⊢
  rw [border_ext h r q] at hb
  simp only [Bool.or_eq_false_iff] at hb
  exact hb.1

/-- Painting an unbordered interior point strictly decreases the measure. -/
theorem unbordered_lt_paint {r : Rect} {c : Char} {s : FillSt} {p : Point}
    (hb : is_border r s.items p = false) (hc : r.contains p = true) :
    unbordered r (paintP s p c).items < unbordered r s.items := by
  refine filter_length_lt _ _ _ ?_ p (mem_interiorPts.mpr hc) ?_ ?_
  · intro q _ hq
    rw [Bool.not_eq_true'] at hq ⊢
    rw [border_ext (paint_ext hb) r q] at hq
    simp only [Bool.or_eq_false_iff] at hq
    exact hq.1
  · simp [hb]
  · have hp : p ∈ (paintP s p c).items.points := by simp [paintP]
    simp [mem_points_border r _ p hp]

/-- A fill on a bordered point returns the state unchanged. -/
theorem fillOrd_border (r : Rect) (c : Char) (ord : List Dir) (n : Nat) (s : FillSt) (p : Point)
    (hb : is_border r s.items p = true) : fillOrd r c ord n s p = s := by
  cases n with
  | zero => rfl
  | succ m => rw [fillOrd_succ, if_pos hb]

/-- Unfolding of bucket_fill at positive fuel. -/
theorem bucket_fill_succ (r : Rect) (c : Char) (n : Nat) (s : FillSt) (p : Point) :
    bucket_fill r c (Nat.succ n) s p =
      if is_border r s.items p then s
      else
        let s1 := paintP s p c
        let s2 := if r.contains p.get_left then bucket_fill r c n s1 p.get_left else s1
        let s3 := if r.contains p.get_up then bucket_fill r c n s2 p.get_up else s2
        let s4 := if r.contains p.get_right then bucket_fill r c n s3 p.get_right else s3
        if r.contains p.get_down then bucket_fill r c n s4 p.get_down else s4 := rfl

/-- bucket_fill is fillOrd with the source exploration order left, up,
right, down. -/
theorem bucket_fill_eq_fillOrd (r : Rect) (c : Char) :
    ∀ (n : Nat) (s : FillSt) (p : Point),
      bucket_fill r c n s p = fillOrd r c [Dir.left, Dir.up, Dir.right, Dir.down] n s p := by
  intro n
  induction n with
  | zero => intro s p; rfl
  | succ m ih =>
    intro s p
    rw [bucket_fill_succ, fillOrd_succ]
    simp only [List.foldl_cons, List.foldl_nil, Point.nbr, ih]

/-- The neighbour fold is fuel-independent once each recursive call is. -/
theorem foldl_fuel_eq (r : Rect) (c : Char) (ord : List Dir) (p : Point) (a b : Nat)
    (hrec : ∀ (t : FillSt) (q : Point), r.contains q = true →
      unbordered r t.items < a → fillOrd r c ord a t q = fillOrd r c ord b t q) :
    ∀ (ords : List Dir) (t : FillSt), unbordered r t.items < a →
      ords.foldl (fun u d => if r.contains (p.nbr d) then fillOrd r c ord a u (p.nbr d) else u) t =
      ords.foldl (fun u d => if r.contains (p.nbr d) then fillOrd r c ord b u (p.nbr d) else u) t := by
  intro ords
  induction ords with
  | nil => intro t _; rfl
  | cons d rest ihf =>
    intro t ht
    simp only [List.foldl_cons]
    by_cases hc : r.contains (p.nbr d) = true
    · rw [if_pos hc, if_pos hc, ← hrec t (p.nbr d) hc ht]
      apply ihf
      calc unbordered r (fillOrd r c ord a t (p.nbr d)).items
          ≤ unbordered r t.items := unbordered_le_of_ext (fillOrd_ext r c ord a t (p.nbr d)) r
        _ < a := ht
    · rw [if_neg hc, if_neg hc]
      exact ihf t ht

/-- Fuel beyond the unbordered-interior measure does not change the fill
of an interior or bordered seed. -/
theorem fillOrd_fuel_mono (r : Rect) (c : Char) (ord : List Dir) :
    ∀ (k : Nat) (s : FillSt) (p : Point) (m : Nat),
      (r.contains p = true ∨ is_border r s.items p = true) →
      unbordered r s.items < k → k ≤ m →
      fillOrd r c ord k s p = fillOrd r c ord m s p := by
  intro k
  induction k using Nat.strong_induction_on with
  | _ k ih =>
    intro s p m hcp hu hkm
    cases k with
    | zero => omega
    | succ a =>
      cases m with
      | zero => omega
      | succ b =>
        rw [fillOrd_succ, fillOrd_succ]
        by_cases hb : is_border r s.items p = true
        · rw [if_pos hb, if_pos hb]
        · rw [if_neg hb, if_neg hb]
          rcases hcp with hcp | hcp
          · rw [Bool.not_eq_true] at hb
            have hdec := unbordered_lt_paint (c := c) hb hcp
            apply foldl_fuel_eq
            · intro t q hcq hut
              exact ih a (Nat.lt_succ_self a) t q b (Or.inl hcq) hut (by omega)
            · omega
          · exact absurd hcp hb

/-- The fill of any seed is fuel-independent once the fuel reaches the
unbordered-interior measure plus two. -/
theorem fillOrd_stable (r : Rect) (c : Char) (ord : List Dir) (s : FillSt) (p : Point)
    (m m' : Nat) (hm : unbordered r s.items + 2 ≤ m) (hm' : unbordered r s.items + 2 ≤ m') :
    fillOrd r c ord m s p = fillOrd r c ord m' s p := by
  wlog hle : m ≤ m' generalizing m m'
  · exact (this m' m hm' hm (by omega)).symm
  cases m with
  | zero => omega
  | succ a =>
    cases m' with
    | zero => omega
    | succ b =>
      rw [fillOrd_succ, fillOrd_succ]
      by_cases hb : is_border r s.items p = true
      · rw [if_pos hb, if_pos hb]
      · rw [if_neg hb, if_neg hb]
        rw [Bool.not_eq_true] at hb
        apply foldl_fuel_eq
        · intro t q hcq hut
          exact fillOrd_fuel_mono r c ord a t q b (Or.inl hcq) hut (by omega)
        · have hle2 : unbordered r (paintP s p c).items ≤ unbordered r s.items :=
            unbordered_le_of_ext (paint_ext hb) r
          omega

/-- C2: the flood fill terminates on every canvas state.  A call on a
bordered point returns the state unchanged at any fuel; a call on an
unbordered point registers the point, which immediately becomes a border
for the rest of the fill and, when the point is inside the canvas, strictly
decreases the number of unbordered interior cells; consequently, once the
fuel reaches fillFuel (unbordered interior cells + 2) the result no longer
depends on the fuel, which is the semantics of the unbounded Python
recursion. -/
theorem claim_C2_fill_terminates (r : Rect) (c : Char) (s : FillSt) (p : Point) :
    (∀ n, is_border r s.items p = true → bucket_fill r c n s p = s) ∧
    (is_border r s.items p = false →
      is_border r (paintP s p c).items p = true ∧
      (r.contains p = true →
        unbordered r (paintP s p c).items < unbordered r s.items)) ∧
    (∀ m m', fillFuel r s.items ≤ m → fillFuel r s.items ≤ m' →
      bucket_fill r c m s p = bucket_fill r c m' s p) := by
  refine ⟨?_, ?_, ?_⟩
  · intro n hb
    rw [bucket_fill_eq_fillOrd]
    exact fillOrd_border r c _ n s p hb
  · intro hb
    refine ⟨?_, fun hc => unbordered_lt_paint hb hc⟩
    exact mem_points_border r _ p (by simp [paintP])
  · intro m m' hm hm'
    rw [bucket_fill_eq_fillOrd, bucket_fill_eq_fillOrd]
    exact fillOrd_stable r c _ s p m m' hm hm'

/-- Witness for C2 on a concrete 3 by 3 canvas with empty registry and
seed (1, 1). -/
theorem claim_C2_fill_terminates_witness :
    is_border (mkRect 0 0 3 3 LType.Regular)
      (paintP (⟨fun _ => ' ', ⟨[], [], []⟩⟩ : FillSt) ⟨1, 1⟩ 'o').items ⟨1, 1⟩ = true ∧
    bucket_fill (mkRect 0 0 3 3 LType.Regular) 'o'
      (fillFuel (mkRect 0 0 3 3 LType.Regular) (⟨fun _ => ' ', ⟨[], [], []⟩⟩ : FillSt).items)
      (⟨fun _ => ' ', ⟨[], [], []⟩⟩ : FillSt) ⟨1, 1⟩ =
    bucket_fill (mkRect 0 0 3 3 LType.Regular) 'o'
      (fillFuel (mkRect 0 0 3 3 LType.Regular) (⟨fun _ => ' ', ⟨[], [], []⟩⟩ : FillSt).items + 1)
      (⟨fun _ => ' ', ⟨[], [], []⟩⟩ : FillSt) ⟨1, 1⟩ :=
  ⟨((claim_C2_fill_terminates (mkRect 0 0 3 3 LType.Regular) 'o'
      (⟨fun _ => ' ', ⟨[], [], []⟩⟩ : FillSt) ⟨1, 1⟩).2.1 (by decide)).1,
   (claim_C2_fill_terminates (mkRect 0 0 3 3 LType.Regular) 'o'
      (⟨fun _ => ' ', ⟨[], [], []⟩⟩ : FillSt) ⟨1, 1⟩).2.2 _ _ (Nat.le_refl _) (Nat.le_succ _)⟩

/-! ### Flood fill: reachability and order independence -/

/-- Every reachable cell is unblocked by the border predicate. -/
theorem reach_not_B {r : Rect} {B : Point → Bool} {p0 q : Point}
    (h : Reach r B p0 q) : B q = false := by
  induction h with
  | refl h0 => exact h0
  | step _ _ _ h4 => exact h4

/-- A cell unblocked by a larger border predicate is unblocked by a
smaller one. -/
theorem B_false_of_le {B B' : Point → Bool} (hBB : ∀ z, B z = true → B' z = true)
    (z : Point) (h : B' z = false) : B z = false := by
  cases hz : B z with
  | false => rfl
  | true =>
    rw [hBB z hz] at h
    exact Bool.noConfusion h

/-- Reachability through a larger border predicate, started at a cell that
is itself reachable, lands inside the original reachable set. -/
theorem reach_absorb {r : Rect} {B B' : Point → Bool} {p0 q' : Point}
    (hBB : ∀ z, B z = true → B' z = true) (hq : Reach r B p0 q') :
    ∀ {x : Point}, Reach r B' q' x → Reach r B p0 x := by
  intro x hx
  induction hx with
  | refl _ => exact hq
  | step _ h2 h3 h4 ih => exact Reach.step ih h2 h3 (B_false_of_le hBB _ h4)

/-- Each direction gives a neighbour. -/
theorem nbr_mem_nbrsList (p : Point) (d : Dir) : p.nbr d ∈ nbrsList p := by
  cases d <;> simp [Point.nbr, nbrsList]

/-- The neighbour list holds exactly the four directional neighbours. -/
theorem mem_nbrsList_iff (p x : Point) : x ∈ nbrsList p ↔ ∃ d, x = p.nbr d := by
  constructor
  · intro h
    simp only [nbrsList, List.mem_cons, List.not_mem_nil, or_false] at h
    rcases h with h | h | h | h
    · exact ⟨Dir.left, h⟩
    · exact ⟨Dir.up, h⟩
    · exact ⟨Dir.right, h⟩
    · exact ⟨Dir.down, h⟩
  · rintro ⟨d, rfl⟩
    exact nbr_mem_nbrsList p d

/-- The seed of a reachability derivation is unblocked. -/
theorem reach_root {r : Rect} {B : Point → Bool} {p0 q : Point}
    (h : Reach r B p0 q) : B p0 = false := by
  induction h with
  | refl h0 => exact h0
  | step _ _ _ _ ih => exact ih

/-- Soundness: every point a fill registers beyond its start state is
reachable from the seed through unbordered interior cells. -/
theorem fillOrd_sound (r : Rect) (c : Char) (ord : List Dir) :
    ∀ (n : Nat) (s : FillSt) (p : Point) (q : Point),
      q ∈ (fillOrd r c ord n s p).items.points →
      q ∈ s.items.points ∨ Reach r (is_border r s.items) p q := by
  intro n
  induction n using Nat.strong_induction_on with
  | _ n ih =>
    intro s p q
    cases n with
    | zero => exact fun h => Or.inl h
    | succ m =>
      rw [fillOrd_succ]
      by_cases hb : is_border r s.items p = true
      · rw [if_pos hb]
        exact fun h => Or.inl h
      · rw [if_neg hb]
        rw [Bool.not_eq_true] at hb
        intro hq
        have hfold : ∀ (ords : List Dir) (t : FillSt),
            (∀ z, z ∈ t.items.points →
              z ∈ s.items.points ∨ Reach r (is_border r s.items) p z) →
            FillExt c s t →
            ∀ z, z ∈ ((ords.foldl
              (fun u d => if r.contains (p.nbr d) then fillOrd r c ord m u (p.nbr d) else u)
              t)).items.points →
              z ∈ s.items.points ∨ Reach r (is_border r s.items) p z := by
          intro ords
          induction ords with
          | nil => exact fun t hInv _ z hz => hInv z hz
          | cons d rest ihf =>
            intro t hInv hExt z hz
            simp only [List.foldl_cons] at hz
            by_cases hcd : r.contains (p.nbr d) = true
            · rw [if_pos hcd] at hz
              refine ihf (fillOrd r c ord m t (p.nbr d)) ?_
                (fillExt_trans hExt (fillOrd_ext r c ord m t (p.nbr d))) z hz
              intro z' hz'
              rcases ih m (Nat.lt_succ_self m) t (p.nbr d) z' hz' with hz' | hz'
              · exact hInv z' hz'
              · right
                have hroot : is_border r t.items (p.nbr d) = false := reach_root hz'
                have hBle : ∀ w, is_border r s.items w = true →
                    is_border r t.items w = true := by
                  intro w hw
                  rw [border_ext hExt r w, hw]
                  rfl
                have hBs : is_border r s.items (p.nbr d) = false :=
                  B_false_of_le hBle _ hroot
                exact reach_absorb hBle
                  (Reach.step (Reach.refl hb) (nbr_mem_nbrsList p d) hcd hBs) hz'
            · rw [if_neg hcd] at hz
              exact ihf t hInv hExt z hz
        refine hfold ord (paintP s p c) ?_ (paint_ext hb) q hq
        intro z hz
        simp only [paintP, List.mem_append, List.mem_singleton] at hz
        rcases hz with (hz | rfl) | rfl
        · exact Or.inl hz
        · exact Or.inr (Reach.refl hb)
        · exact Or.inr (Reach.refl hb)

/-- Closure: with full fuel and every direction explored, the set of newly
registered points is closed under unbordered interior neighbours. -/
theorem fillOrd_closure (r : Rect) (c : Char) (ord : List Dir) (hord : ∀ d, d ∈ ord) :
    ∀ (n : Nat) (s : FillSt) (p : Point),
      r.contains p = true → unbordered r s.items + 2 ≤ n →
      ∀ y x, y ∈ (fillOrd r c ord n s p).items.points → y ∉ s.items.points →
        x ∈ nbrsList y → r.contains x = true → is_border r s.items x = false →
        x ∈ (fillOrd r c ord n s p).items.points := by
  intro n
  induction n using Nat.strong_induction_on with
  | _ n ih =>
    intro s p hcp hfuel y x hy hys hnbr hcx hbx
    cases n with
    | zero => omega
    | succ m =>
      rw [fillOrd_succ] at hy ⊢
      by_cases hb : is_border r s.items p = true
      · rw [if_pos hb] at hy ⊢
        exact absurd hy hys
      · rw [if_neg hb] at hy ⊢
        rw [Bool.not_eq_true] at hb
        have hpe : FillExt c s (paintP s p c) := paint_ext hb
        have hult : unbordered r (paintP s p c).items < unbordered r s.items :=
          unbordered_lt_paint hb hcp
        have hclos : ∀ (ords : List Dir) (t : FillSt),
            FillExt c (paintP s p c) t →
            ∀ z, z ∈ ((ords.foldl
                (fun u d => if r.contains (p.nbr d) then fillOrd r c ord m u (p.nbr d) else u)
                t)).items.points →
              z ∉ t.items.points →
              ∀ w, w ∈ nbrsList z → r.contains w = true → is_border r s.items w = false →
                w ∈ ((ords.foldl
                  (fun u d => if r.contains (p.nbr d) then fillOrd r c ord m u (p.nbr d) else u)
                  t)).items.points := by
          intro ords
          induction ords with
          | nil => exact fun t _ z hz hzt _ _ _ _ => absurd hz hzt
          | cons d rest ihf =>
            intro t hExt z hz hzt w hw hcw hbw
            simp only [List.foldl_cons] at hz ⊢
            by_cases hcd : r.contains (p.nbr d) = true
            · rw [if_pos hcd] at hz ⊢
              by_cases hzt' : z ∈ (fillOrd r c ord m t (p.nbr d)).items.points
              · have hExtst : FillExt c s t := fillExt_trans hpe hExt
                have hfuel' : unbordered r t.items + 2 ≤ m := by
                  have h1 : unbordered r t.items ≤ unbordered r (paintP s p c).items :=
                    unbordered_le_of_ext hExt r
                  omega
                by_cases hBt : is_border r t.items w = true
                · have hmem : w ∈ t.items.points := by
                    rw [border_ext hExtst r w] at hBt
                    simp [hbw] at hBt
                    exact hBt
                  have l1 := (fillOrd_ext r c ord m t (p.nbr d)).2.2.1 _ hmem
                  exact (foldl_fill_ext r c ord m p rest _).2.2.1 _ l1
                · rw [Bool.not_eq_true] at hBt
                  have hwin := ih m (Nat.lt_succ_self m) t (p.nbr d) hcd hfuel'
                    z w hzt' hzt hw hcw hBt
                  exact (foldl_fill_ext r c ord m p rest _).2.2.1 _ hwin
              · exact ihf (fillOrd r c ord m t (p.nbr d))
                  (fillExt_trans hExt (fillOrd_ext r c ord m t (p.nbr d)))
                  z hz hzt' w hw hcw hbw
            · rw [if_neg hcd] at hz ⊢
              exact ihf t hExt z hz hzt w hw hcw hbw
        have hvisit : ∀ (ords : List Dir) (t : FillSt),
            FillExt c (paintP s p c) t →
            ∀ d, d ∈ ords → r.contains (p.nbr d) = true →
              is_border r s.items (p.nbr d) = false →
              p.nbr d ∈ ((ords.foldl
                (fun u d => if r.contains (p.nbr d) then fillOrd r c ord m u (p.nbr d) else u)
                t)).items.points := by
          intro ords
          induction ords with
          | nil =>
            intro t _ d hd
            cases hd
          | cons d' rest ihf =>
            intro t hExt d hd hcd hbd
            simp only [List.foldl_cons]
            rcases List.mem_cons.mp hd with rfl | hd'
            · rw [if_pos hcd]
              by_cases hBt : is_border r t.items (p.nbr d) = true
              · have hmem : p.nbr d ∈ t.items.points := by
                  rw [border_ext (fillExt_trans hpe hExt) r _] at hBt
                  simp [hbd] at hBt
                  exact hBt
                have l1 := (fillOrd_ext r c ord m t (p.nbr d)).2.2.1 _ hmem
                exact (foldl_fill_ext r c ord m p rest _).2.2.1 _ l1
              · rw [Bool.not_eq_true] at hBt
                obtain ⟨m', rfl⟩ : ∃ m'', m = m'' + 1 := ⟨m - 1, by omega⟩
                have hseed := fillOrd_paints_seed r c ord m' t (p.nbr d) hBt
                exact (foldl_fill_ext r c ord (m' + 1) p rest _).2.2.1 _ hseed
            · by_cases hcd' : r.contains (p.nbr d') = true
              · rw [if_pos hcd']
                exact ihf (fillOrd r c ord m t (p.nbr d'))
                  (fillExt_trans hExt (fillOrd_ext r c ord m t (p.nbr d')))
                  d hd' hcd hbd
              · rw [if_neg hcd']
                exact ihf t hExt d hd' hcd hbd
        by_cases hys1 : y ∈ (paintP s p c).items.points
        · have hyp : y = p := by
            simp only [paintP, List.mem_append, List.mem_singleton] at hys1
            rcases hys1 with (h | rfl) | rfl
            · exact absurd h hys
            · rfl
            · rfl
          rw [hyp] at hnbr
          obtain ⟨d, rfl⟩ := (mem_nbrsList_iff p x).mp hnbr
          exact hvisit ord (paintP s p c) (fillExt_refl c _) d (hord d) hcx hbx
        · exact hclos ord (paintP s p c) (fillExt_refl c _) y hy hys1 x hnbr hcx hbx

/-- Completeness: with full fuel and every direction explored, the fill
registers every cell reachable from the seed. -/
theorem fillOrd_complete (r : Rect) (c : Char) (ord : List Dir) (hord : ∀ d, d ∈ ord)
    (n : Nat) (s : FillSt) (p : Point) (hcp : r.contains p = true)
    (hfuel : unbordered r s.items + 2 ≤ n) :
    ∀ q, Reach r (is_border r s.items) p q →
      q ∈ (fillOrd r c ord n s p).items.points := by
  intro q hq
  induction hq with
  | refl hb =>
    cases n with
    | zero => omega
    | succ m =>
      rw [fillOrd_succ, hb]
      simp only [Bool.false_eq_true, if_false]
      exact (foldl_fill_ext r c ord m p ord _).2.2.1 p (by simp [paintP])
  | @step y x h1 h2 h3 h4 ih =>
    have hys : y ∉ s.items.points := by
      intro hmem
      have hby := reach_not_B h1
      rw [mem_points_border r s.items y hmem] at hby
      exact Bool.noConfusion hby
    exact fillOrd_closure r c ord hord n s p hcp hfuel y x ih hys h2 h3 h4

/-- The registered points after a fill are exactly the old points plus the
cells reachable from the seed, for any exploration order covering all four
directions and any sufficient fuel. -/
theorem fillOrd_char (r : Rect) (c : Char) (ord : List Dir) (hord : ∀ d, d ∈ ord)
    (n : Nat) (s : FillSt) (p : Point) (hcp : r.contains p = true)
    (hfuel : unbordered r s.items + 2 ≤ n) (q : Point) :
    q ∈ (fillOrd r c ord n s p).items.points ↔
      (q ∈ s.items.points ∨ Reach r (is_border r s.items) p q) := by
  constructor
  · exact fillOrd_sound r c ord n s p q
  · rintro (hq | hq)
    · exact (fillOrd_ext r c ord n s p).2.2.1 q hq
    · exact fillOrd_complete r c ord hord n s p hcp hfuel q hq

/-- C8: the cells painted by the flood fill do not depend on the order in
which the four neighbours are explored: for every permutation of the
source order (left, up, right, down), every canvas state and every valid
seed, the generalised fill registers exactly the same set of points as
bucket_fill and leaves every window cell with the same glyph; only the
order of the redraws differs. -/
theorem claim_C8_order_independent (r : Rect) (c : Char) (s : FillSt) (p : Point)
    (ord : List Dir) (hperm : ord.Perm [Dir.left, Dir.up, Dir.right, Dir.down])
    (hcp : r.contains p = true) (m m' : Nat)
    (hm : fillFuel r s.items ≤ m) (hm' : fillFuel r s.items ≤ m') :
    (∀ q, q ∈ (fillOrd r c ord m s p).items.points ↔
          q ∈ (bucket_fill r c m' s p).items.points) ∧
    (∀ q, (fillOrd r c ord m s p).window q = (bucket_fill r c m' s p).window q) := by
  have hord : ∀ d, d ∈ ord := by
    intro d
    rw [hperm.mem_iff]
    cases d <;> simp
  have hstd : ∀ d : Dir, d ∈ [Dir.left, Dir.up, Dir.right, Dir.down] := by
    intro d
    cases d <;> simp
  have hfm : unbordered r s.items + 2 ≤ m := hm
  have hfm' : unbordered r s.items + 2 ≤ m' := hm'
  rw [bucket_fill_eq_fillOrd]
  have hiff : ∀ q, q ∈ (fillOrd r c ord m s p).items.points ↔
      q ∈ (fillOrd r c [Dir.left, Dir.up, Dir.right, Dir.down] m' s p).items.points := by
    intro q
    rw [fillOrd_char r c ord hord m s p hcp hfm q,
      fillOrd_char r c [Dir.left, Dir.up, Dir.right, Dir.down] hstd m' s p hcp hfm' q]
  refine ⟨hiff, ?_⟩
  intro q
  have e1 := fillOrd_ext r c ord m s p
  have e2 := fillOrd_ext r c [Dir.left, Dir.up, Dir.right, Dir.down] m' s p
  by_cases hin : q ∈ (fillOrd r c ord m s p).items.points
  · by_cases hs : q ∈ s.items.points
    · rw [e1.2.2.2.2 q (Or.inr hs), e2.2.2.2.2 q (Or.inr hs)]
    · rw [e1.2.2.2.1 q hin hs, e2.2.2.2.1 q ((hiff q).mp hin) hs]
  · have hin2 : q ∉ (fillOrd r c [Dir.left, Dir.up, Dir.right, Dir.down] m' s p).items.points :=
      fun h => hin ((hiff q).mpr h)
    rw [e1.2.2.2.2 q (Or.inl hin), e2.2.2.2.2 q (Or.inl hin2)]

/-- Witness for C8 on a concrete 3 by 3 canvas, seed (1, 1) and the
reversed exploration order, evaluated at the cell (2, 1). -/
theorem claim_C8_order_independent_witness :
    ((⟨2, 1⟩ : Point) ∈ (fillOrd (mkRect 0 0 3 3 LType.Regular) 'o'
        [Dir.down, Dir.right, Dir.up, Dir.left]
        (fillFuel (mkRect 0 0 3 3 LType.Regular) (⟨fun _ => ' ', ⟨[], [], []⟩⟩ : FillSt).items)
        (⟨fun _ => ' ', ⟨[], [], []⟩⟩ : FillSt) ⟨1, 1⟩).items.points ↔
     (⟨2, 1⟩ : Point) ∈ (bucket_fill (mkRect 0 0 3 3 LType.Regular) 'o'
        (fillFuel (mkRect 0 0 3 3 LType.Regular) (⟨fun _ => ' ', ⟨[], [], []⟩⟩ : FillSt).items)
        (⟨fun _ => ' ', ⟨[], [], []⟩⟩ : FillSt) ⟨1, 1⟩).items.points) ∧
    (fillOrd (mkRect 0 0 3 3 LType.Regular) 'o'
        [Dir.down, Dir.right, Dir.up, Dir.left]
        (fillFuel (mkRect 0 0 3 3 LType.Regular) (⟨fun _ => ' ', ⟨[], [], []⟩⟩ : FillSt).items)
        (⟨fun _ => ' ', ⟨[], [], []⟩⟩ : FillSt) ⟨1, 1⟩).window ⟨2, 1⟩ =
    (bucket_fill (mkRect 0 0 3 3 LType.Regular) 'o'
        (fillFuel (mkRect 0 0 3 3 LType.Regular) (⟨fun _ => ' ', ⟨[], [], []⟩⟩ : FillSt).items)
        (⟨fun _ => ' ', ⟨[], [], []⟩⟩ : FillSt) ⟨1, 1⟩).window ⟨2, 1⟩ :=
  ⟨(claim_C8_order_independent (mkRect 0 0 3 3 LType.Regular) 'o' (⟨fun _ => ' ', ⟨[], [], []⟩⟩ : FillSt)
      ⟨1, 1⟩ [Dir.down, Dir.right, Dir.up, Dir.left] (by decide) (by decide) _ _
      (Nat.le_refl _) (Nat.le_refl _)).1 ⟨2, 1⟩,
   (claim_C8_order_independent (mkRect 0 0 3 3 LType.Regular) 'o' (⟨fun _ => ' ', ⟨[], [], []⟩⟩ : FillSt)
      ⟨1, 1⟩ [Dir.down, Dir.right, Dir.up, Dir.left] (by decide) (by decide) _ _
      (Nat.le_refl _) (Nat.le_refl _)).2 ⟨2, 1⟩⟩
